import Mathlib

/-!
Shallow embedding of the client-side note manager implemented in
src/notes_frontend/src/main.jsx, together with theorems settling the
specification claims about it.

Modelling conventions:
* A Note mirrors the object literal built in handleCreateNote; timestamps
  (epoch milliseconds) are Nat.
* The React component state (notes, searchQuery, selectedId, isEditing,
  editBuffer) is collected in AppState, extended with a field storage
  holding the note list last written to the durable localStorage slot
  (serialization is abstracted away: the slot content is modelled as the
  list itself).  The persistence useEffect runs after every notes update
  and before the next user event, so each event handler is modelled as the
  state update followed by the effect (storage := new notes).
* Date.now() and crypto.randomUUID() are modelled as explicit parameters
  (now, newId) of the handlers that call them.
* A handler that can throw a TypeError is modelled with an Option result,
  none meaning the exception.
-/

namespace NotesApp

/-- Note record, as built in handleCreateNote:
id, title, content, created, updated. -/
structure Note where
  id : String
  title : String
  content : String
  created : Nat
  updated : Nat
deriving DecidableEq, Repr

/-- The editBuffer draft state: a title and a content string. -/
structure EditBuffer where
  title : String
  content : String
deriving DecidableEq, Repr

/-- The component state of App, plus the modelled durable slot. -/
structure AppState where
  notes : List Note
  searchQuery : String
  selectedId : Option String
  isEditing : Bool
  editBuffer : EditBuffer
  storage : List Note
deriving DecidableEq, Repr

/-- The default title string used by the application. -/
def placeholderTitle : String := "Untitled Note"

/-- Boolean test that the second character list is a leading segment of the
first; auxiliary to the substring test below. -/
def startsWithL : List Char → List Char → Bool
  | _, [] => true
  | [], _ :: _ => false
  | a :: as, b :: bs => a == b && startsWithL as bs

/-- Model of JavaScript String.prototype.includes on character lists: does
the pattern (second argument) occur contiguously inside the first? -/
def containsSubL : List Char → List Char → Bool
  | [], pat => pat.isEmpty
  | s@(_ :: rest), pat => startsWithL s pat || containsSubL rest pat

/-- Model of String.prototype.toLowerCase as character-wise lowercasing
of the character list of a string. -/
def toLowerL (s : List Char) : List Char := s.map Char.toLower

/-- Model of String.prototype.trim: drop leading and trailing whitespace
characters. -/
def trimL (s : List Char) : List Char :=
  ((s.dropWhile Char.isWhitespace).reverse.dropWhile Char.isWhitespace).reverse

/-- Model of Array.prototype.findIndex: the index of the first element
satisfying the predicate, none standing for the sentinel -1. -/
def findIndexL (p : Note → Bool) : List Note → Option Nat
  | [] => none
  | n :: rest => if p n then some 0 else (findIndexL p rest).map (· + 1)

/-- The sidebar filter predicate of filteredNotes:
note.title.toLowerCase().includes(q.toLowerCase()) ||
note.content.toLowerCase().includes(q.toLowerCase()). -/
def matchesNote (q : String) (n : Note) : Bool :=
  containsSubL (toLowerL n.title.data) (toLowerL q.data) ||
  containsSubL (toLowerL n.content.data) (toLowerL q.data)

/-- The sort order of the comparator (a, b) => b.updated - a.updated:
a may stay before b exactly when the comparator is nonpositive,
i.e. b.updated <= a.updated. -/
def updatedGE (a b : Note) : Bool := decide (b.updated ≤ a.updated)

/-- The derived list filteredNotes: filter by the search query, then sort
by updated descending.  Array.prototype.sort is stable (ECMAScript 2019),
so it is modelled by the stable List.mergeSort. -/
def filteredNotes (notes : List Note) (q : String) : List Note :=
  (notes.filter (matchesNote q)).mergeSort updatedGE

/-- handleCreateNote: builds the fresh note, puts it at the head of the
list, selects it, enters edit mode with the pre-filled buffer; the
persistence effect then writes the new list to the slot. -/
def handleCreateNote (newId : String) (now : Nat) (s : AppState) : AppState :=
  let newNote : Note :=
    { id := newId, title := placeholderTitle, content := "",
      created := now, updated := now }
  { s with notes := newNote :: s.notes,
           selectedId := some newId,
           isEditing := true,
           editBuffer := { title := placeholderTitle, content := "" },
           storage := newNote :: s.notes }

/-- handleSelectNote: sets the selection and leaves edit mode, then reads
notes.find(n => n.id === id) and dereferences .title and .content on the
result.  When no note has the id, find yields undefined and the
dereference throws a TypeError: that crash is the none outcome. -/
def handleSelectNote (id : String) (s : AppState) : Option AppState :=
  match s.notes.find? (fun n => n.id == id) with
  | some note =>
      some { s with selectedId := some id,
                    isEditing := false,
                    editBuffer := { title := note.title, content := note.content } }
  | none => none

/-- handleSaveNote: maps over notes, replacing every note whose id equals
selectedId (strict equality against a possibly-null selectedId) with the
edited note; an empty-after-trim title falls back to the placeholder, the
content is taken verbatim, updated is set to now; leaves edit mode; the
persistence effect writes the new list. -/
def handleSaveNote (now : Nat) (s : AppState) : AppState :=
  let newNotes := s.notes.map (fun n =>
    if some n.id == s.selectedId then
      { n with
        title := if (trimL s.editBuffer.title.data).isEmpty
                 then placeholderTitle else s.editBuffer.title,
        content := s.editBuffer.content,
        updated := now }
    else n)
  { s with notes := newNotes, isEditing := false, storage := newNotes }

/-- handleDeleteNote: looks up the index of the id (findIndex, none for
-1), filters the note out, reselects newNotes[Math.max(0, idx - 1)] when a
match was found and notes remain (Nat subtraction clamps at 0 exactly like
Math.max(0, idx - 1), and the access is provably in bounds in that
branch), otherwise clears the selection; always leaves edit mode; the
persistence effect writes the new list. -/
def handleDeleteNote (id : String) (s : AppState) : AppState :=
  let newNotes := s.notes.filter (fun n => !(n.id == id))
  let newSel : Option String :=
    match findIndexL (fun n => n.id == id) s.notes with
    | some idx =>
        if newNotes.isEmpty then none
        else (newNotes[idx - 1]?).map Note.id
    | none => none
  { s with notes := newNotes,
           selectedId := newSel,
           isEditing := false,
           storage := newNotes }

/-- Startup initialization of the notes state:
stored ? JSON.parse(stored) : [].  The slot is none when the key is
absent; a present string that is empty is falsy in JavaScript, so the
conditional also yields the empty list then; otherwise JSON.parse runs,
modelled by the parameter parse (none = the exception JSON.parse throws on
unparsable input), and nothing in the component catches that exception. -/
def initNotes (stored : Option String)
    (parse : String → Option (List Note)) : Except Unit (List Note) :=
  match stored with
  | none => Except.ok []
  | some s =>
      if s = "" then Except.ok []
      else
        match parse s with
        | some ns => Except.ok ns
        | none => Except.error ()

/-- The three mutating operations of the store, with their external
inputs (fresh id, current time) made explicit. -/
inductive Op where
  | create (newId : String) (now : Nat)
  | save (now : Nat)
  | delete (id : String)
deriving Repr

/-- Run one mutating operation (handler followed by the persistence
effect, as in each handler definition). -/
def applyOp : Op → AppState → AppState
  | Op.create newId now, s => handleCreateNote newId now s
  | Op.save now, s => handleSaveNote now s
  | Op.delete id, s => handleDeleteNote id s

/-- Run a sequence of mutating operations from an initial state. -/
def applyOps (ops : List Op) (s : AppState) : AppState :=
  ops.foldl (fun st op => applyOp op st) s

/-! Helper lemmas shared by the claim theorems. -/

lemma filter_keep_of_absent (l : List Note) (id : String)
    (h : ∀ n ∈ l, ¬ n.id = id) :
    l.filter (fun n => !(n.id == id)) = l := by
  rw [List.filter_eq_self]
  intro a ha
  simp only [Bool.not_eq_true', beq_eq_false_iff_ne]
  exact h a ha

lemma findIndexL_eq_none_of_absent (p : Note → Bool) (l : List Note)
    (h : ∀ n ∈ l, p n = false) : findIndexL p l = none := by
  induction l with
  | nil => rfl
  | cons a t ih =>
      rw [findIndexL, if_neg (by simp [h a (List.mem_cons_self a t)])]
      rw [ih (fun n hn => h n (List.mem_cons_of_mem a hn))]
      rfl

lemma findIndexL_lt_length (p : Note → Bool) (l : List Note) (idx : Nat)
    (h : findIndexL p l = some idx) : idx < l.length := by
  induction l generalizing idx with
  | nil => simp [findIndexL] at h
  | cons a t ih =>
      by_cases hpa : p a = true
      · simp only [findIndexL, if_pos hpa, Option.some.injEq] at h
        simp [← h]
      · simp only [findIndexL, if_neg hpa, Option.map_eq_some'] at h
        obtain ⟨j, hj, rfl⟩ := h
        have := ih j hj
        simp only [List.length_cons]
        omega

/-- C4: after any sequence of create, save, and delete operations ending
in an operation, the durable slot holds exactly the in-memory note list:
each handler computes its new list once and both the state update and the
persistence effect receive it. -/
theorem C4_storage_equals_notes (s : AppState) (ops : List Op) (op : Op) :
    (applyOps (ops ++ [op]) s).storage = (applyOps (ops ++ [op]) s).notes := by
  have hsplit : applyOps (ops ++ [op]) s = applyOp op (applyOps ops s) := by
    simp [applyOps, List.foldl_append]
  rw [hsplit]
  cases op <;> rfl

/-- C8: handleCreateNote puts the freshly initialized note at the head of
the collection, and an immediate lookup by its id finds exactly that note,
whose created and updated timestamps coincide, whose title is the
placeholder, and whose content is empty. -/
theorem C8_create_then_get_roundtrip (s : AppState) (newId : String) (now : Nat) :
    (handleCreateNote newId now s).notes =
      ({ id := newId, title := placeholderTitle, content := "",
         created := now, updated := now } : Note) :: s.notes
    ∧ (handleCreateNote newId now s).notes.find? (fun n => n.id == newId) =
        some { id := newId, title := placeholderTitle, content := "",
               created := now, updated := now }
    ∧ ∀ m : Note,
        (handleCreateNote newId now s).notes.find? (fun n => n.id == newId) = some m →
          m.created = m.updated ∧ m.title = placeholderTitle ∧ m.content = "" := by
  have hfind : (handleCreateNote newId now s).notes.find? (fun n => n.id == newId) =
      some { id := newId, title := placeholderTitle, content := "",
             created := now, updated := now } :=
    List.find?_cons_of_pos _ (by simp)
  refine ⟨rfl, hfind, ?_⟩
  intro m hm
  rw [hfind] at hm
  cases hm
  exact ⟨rfl, rfl, rfl⟩

/-- C1: the specification demands that selecting an id absent from the
collection acts as a deselect and never crashes; the code instead reads
notes.find(...).title on an undefined result, a TypeError.  This theorem
records the code behaviour: for every state and every id carried by no
note, handleSelectNote reaches the crashing dereference (the none
outcome), so the specified deselect transition never happens. -/
theorem C1_select_missing_id_crashes (s : AppState) (id : String)
    (h : ∀ n ∈ s.notes, ¬ n.id = id) :
    handleSelectNote id s = none := by
  have hfind : s.notes.find? (fun n => n.id == id) = none := by
    rw [List.find?_eq_none]
    intro n hn
    simp [h n hn]
  simp [handleSelectNote, hfind]

theorem C1_witness :
    (∀ n ∈ (⟨[], "", none, false, ⟨"", ""⟩, []⟩ : AppState).notes, ¬ n.id = "a")
    ∧ handleSelectNote "a" ⟨[], "", none, false, ⟨"", ""⟩, []⟩ = none :=
  ⟨by simp, C1_select_missing_id_crashes ⟨[], "", none, false, ⟨"", ""⟩, []⟩ "a" (by simp)⟩

/-- C2 counterexample: the claim that any unparsable slot content is
recovered into the empty collection is false: a parse behaviour (modelling
JSON.parse, which throws on the content "garbage") under which the content
fails to parse leads initNotes to the uncaught-exception outcome, not to
Except.ok []. -/
theorem C2_counterexample :
    ¬ ∀ (parse : String → Option (List Note)) (st : String),
        parse st = none → initNotes (some st) parse = Except.ok [] := by
  intro h
  have h2 := h (fun _ => none) "garbage" rfl
  rw [show initNotes (some "garbage") (fun _ => none) = Except.error () from rfl] at h2
  exact Except.noConfusion h2

/-- C2 amended: an absent slot initializes the empty collection, and so
does a present empty-string slot (the string is falsy in JavaScript, so
JSON.parse is never reached); any other content on which JSON.parse fails
makes startup end in the uncaught parse exception. -/
theorem C2_amended_init (parse : String → Option (List Note)) :
    initNotes none parse = Except.ok []
    ∧ initNotes (some "") parse = Except.ok []
    ∧ ∀ st : String, st ≠ "" → parse st = none →
        initNotes (some st) parse = Except.error () := by
  refine ⟨rfl, by simp [initNotes], ?_⟩
  intro st hne hp
  simp [initNotes, hne, hp]

theorem C2_amended_init_witness :
    ("xyz" : String) ≠ ""
    ∧ (fun _ : String => (none : Option (List Note))) "xyz" = none
    ∧ initNotes (some "xyz") (fun _ : String => (none : Option (List Note)))
        = Except.error () :=
  ⟨by decide, rfl,
    (C2_amended_init (fun _ : String => (none : Option (List Note)))).2.2 "xyz"
      (by decide) rfl⟩

/-- Concrete state for claim C3: one note with id a, while the selection
points at the nonexistent id b. -/
def stC3 : AppState :=
  ⟨[⟨"a", "T", "C", 1, 1⟩], "", some "b", true, ⟨"newT", "newC"⟩,
    [⟨"a", "T", "C", 1, 1⟩]⟩

/-- C3 counterexample: saving while the selected id b names no note does
not fail and reports nothing: handleSaveNote terminates normally, leaves
the collection untouched, and merely exits edit mode.  The handler has no
error channel at all, so the claimed not-found report cannot occur. -/
theorem C3_counterexample :
    stC3.selectedId = some "b"
    ∧ (∀ n ∈ stC3.notes, ¬ n.id = "b")
    ∧ handleSaveNote 5 stC3 = { stC3 with isEditing := false } := by
  refine ⟨rfl, by decide, by decide⟩

/-- C3 amended: saving with a selected id that no note carries completes
silently: the collection is unchanged, edit mode is exited, the unchanged
collection is rewritten to the slot, and no failure is reported (the
handler has no failure outcome). -/
theorem C3_amended_save_noop (s : AppState) (now : Nat) (sid : String)
    (hsel : s.selectedId = some sid)
    (habs : ∀ n ∈ s.notes, ¬ n.id = sid) :
    handleSaveNote now s = { s with isEditing := false, storage := s.notes } := by
  have key : s.notes.map (fun n =>
      if some n.id == s.selectedId then
        { n with
          title := if (trimL s.editBuffer.title.data).isEmpty
                   then placeholderTitle else s.editBuffer.title,
          content := s.editBuffer.content,
          updated := now }
      else n) = s.notes := by
    have : ∀ n ∈ s.notes, (fun n =>
        if some n.id == s.selectedId then
          { n with
            title := if (trimL s.editBuffer.title.data).isEmpty
                     then placeholderTitle else s.editBuffer.title,
            content := s.editBuffer.content,
            updated := now }
        else n) n = id n := by
      intro n hn
      have hne : ¬ (some n.id == s.selectedId) = true := by
        simp [hsel, habs n hn]
      simp only [if_neg hne, id_eq]
    rw [List.map_congr_left this, List.map_id]
  simp only [handleSaveNote, key]

theorem C3_amended_save_noop_witness :
    stC3.selectedId = some "b"
    ∧ (∀ n ∈ stC3.notes, ¬ n.id = "b")
    ∧ handleSaveNote 5 stC3 = { stC3 with isEditing := false, storage := stC3.notes } :=
  ⟨rfl, by decide, C3_amended_save_noop stC3 5 "b" rfl (by decide)⟩

/-- Concrete state for claim C10: two notes with ids a and b, with a
currently selected and being edited. -/
def stC10 : AppState :=
  ⟨[⟨"a", "TA", "CA", 1, 4⟩, ⟨"b", "TB", "CB", 2, 3⟩], "", some "a", true,
    ⟨"TA", "CA"⟩, [⟨"a", "TA", "CA", 1, 4⟩, ⟨"b", "TB", "CB", 2, 3⟩]⟩

/-- C10: deleting an id carried by no note leaves the collection as it
was, yet clears the selection and leaves edit mode, even though notes
remain and an existing note was selected; the unchanged collection is
rewritten to the slot. -/
theorem C10_delete_missing_id_clears_selection (s : AppState) (id : String)
    (habs : ∀ n ∈ s.notes, ¬ n.id = id) :
    (handleDeleteNote id s).notes = s.notes
    ∧ (handleDeleteNote id s).selectedId = none
    ∧ (handleDeleteNote id s).isEditing = false
    ∧ (handleDeleteNote id s).editBuffer = s.editBuffer
    ∧ (handleDeleteNote id s).searchQuery = s.searchQuery
    ∧ (handleDeleteNote id s).storage = s.notes := by
  have hf : s.notes.filter (fun n => !(n.id == id)) = s.notes :=
    filter_keep_of_absent s.notes id habs
  have hidx : findIndexL (fun n => n.id == id) s.notes = none :=
    findIndexL_eq_none_of_absent _ _ (fun n hn => by simp [habs n hn])
  refine ⟨?_, ?_, rfl, rfl, rfl, ?_⟩ <;>
    simp [handleDeleteNote, hf, hidx]

theorem C10_witness :
    (∀ n ∈ stC10.notes, ¬ n.id = "z")
    ∧ ((handleDeleteNote "z" stC10).notes = stC10.notes
      ∧ (handleDeleteNote "z" stC10).selectedId = none
      ∧ (handleDeleteNote "z" stC10).isEditing = false
      ∧ (handleDeleteNote "z" stC10).editBuffer = stC10.editBuffer
      ∧ (handleDeleteNote "z" stC10).searchQuery = stC10.searchQuery
      ∧ (handleDeleteNote "z" stC10).storage = stC10.notes) :=
  ⟨by decide, C10_delete_missing_id_clears_selection stC10 "z" (by decide)⟩

lemma find?_map_ite (p : Note → Bool) (f : Note → Note)
    (hf : ∀ n : Note, p n = true → p (f n) = true) :
    ∀ (l : List Note) (n₀ : Note), l.find? p = some n₀ →
      (l.map (fun n => if p n then f n else n)).find? p = some (f n₀) := by
  intro l
  induction l with
  | nil => intro n₀ h; simp at h
  | cons a t ih =>
      intro n₀ h
      by_cases hpa : p a = true
      · rw [List.find?_cons_of_pos t hpa] at h
        cases h
        simp only [List.map_cons, if_pos hpa]
        exact List.find?_cons_of_pos _ (hf a hpa)
      · rw [List.find?_cons_of_neg t hpa] at h
        simp only [List.map_cons, if_neg hpa]
        rw [List.find?_cons_of_neg _ hpa]
        exact ih n₀ h

/-- C7: when the selected id names a note, handleSaveNote rewrites that
note so that its title is the submitted title unless the submitted title
trims to nothing (then the placeholder), its content is the submitted
content verbatim, its updated timestamp is the current time while created
is untouched, and therefore updated exceeds created whenever the save
happens strictly after creation. -/
theorem C7_save_rewrites_selected_note (s : AppState) (now : Nat) (sid : String)
    (n₀ : Note)
    (hsel : s.selectedId = some sid)
    (hfind : s.notes.find? (fun n => n.id == sid) = some n₀)
    (hlt : n₀.created < now) :
    ∃ m : Note,
      (handleSaveNote now s).notes.find? (fun n => n.id == sid) = some m
      ∧ m.title = (if (trimL s.editBuffer.title.data).isEmpty
                   then placeholderTitle else s.editBuffer.title)
      ∧ (trimL s.editBuffer.title.data = [] → m.title = placeholderTitle)
      ∧ m.content = s.editBuffer.content
      ∧ m.updated = now
      ∧ m.created = n₀.created
      ∧ m.created < m.updated := by
  refine ⟨{ n₀ with
      title := if (trimL s.editBuffer.title.data).isEmpty
               then placeholderTitle else s.editBuffer.title,
      content := s.editBuffer.content,
      updated := now }, ?_, rfl, ?_, rfl, rfl, rfl, hlt⟩
  · simp only [handleSaveNote, hsel]
    exact find?_map_ite (fun n => n.id == sid)
      (fun n => { n with
        title := if (trimL s.editBuffer.title.data).isEmpty
                 then placeholderTitle else s.editBuffer.title,
        content := s.editBuffer.content,
        updated := now })
      (fun n h => h) s.notes n₀ hfind
  · intro htrim
    simp [htrim]

/-- Concrete state for claim C7: one note with id a, selected, with an
edit buffer holding a whitespace-only title and the content body. -/
def stC7 : AppState :=
  ⟨[⟨"a", "Old", "old", 1, 1⟩], "", some "a", true, ⟨" ", "body"⟩,
    [⟨"a", "Old", "old", 1, 1⟩]⟩

theorem C7_witness :
    stC7.selectedId = some "a"
    ∧ stC7.notes.find? (fun n => n.id == "a") = some ⟨"a", "Old", "old", 1, 1⟩
    ∧ (⟨"a", "Old", "old", 1, 1⟩ : Note).created < 5
    ∧ (∃ m : Note,
        (handleSaveNote 5 stC7).notes.find? (fun n => n.id == "a") = some m
        ∧ m.title = (if (trimL stC7.editBuffer.title.data).isEmpty
                     then placeholderTitle else stC7.editBuffer.title)
        ∧ (trimL stC7.editBuffer.title.data = [] → m.title = placeholderTitle)
        ∧ m.content = stC7.editBuffer.content
        ∧ m.updated = 5
        ∧ m.created = (⟨"a", "Old", "old", 1, 1⟩ : Note).created
        ∧ m.created < m.updated)
    ∧ trimL stC7.editBuffer.title.data = [] :=
  ⟨rfl, by decide, by decide,
    C7_save_rewrites_selected_note stC7 5 "a" ⟨"a", "Old", "old", 1, 1⟩ rfl
      (by decide) (by decide),
    by decide⟩

lemma startsWithL_iff (s pat : List Char) :
    startsWithL s pat = true ↔ ∃ post, s = pat ++ post := by
  induction pat generalizing s with
  | nil =>
      constructor
      · intro _
        exact ⟨s, rfl⟩
      · intro _
        cases s with
        | nil => rfl
        | cons a as => rfl
  | cons b bs ih =>
      cases s with
      | nil =>
          constructor
          · intro h
            exact Bool.noConfusion h
          · rintro ⟨post, hpost⟩
            simp at hpost
      | cons a as =>
          simp only [startsWithL, Bool.and_eq_true, beq_iff_eq, ih,
            List.cons_append, List.cons.injEq]
          constructor
          · rintro ⟨rfl, post, rfl⟩
            exact ⟨post, rfl, rfl⟩
          · rintro ⟨post, rfl, rfl⟩
            exact ⟨rfl, post, rfl⟩

lemma containsSubL_iff (s pat : List Char) :
    containsSubL s pat = true ↔ ∃ pre post, s = pre ++ pat ++ post := by
  induction s with
  | nil =>
      constructor
      · intro h
        have hpat : pat = [] := by
          cases pat with
          | nil => rfl
          | cons b bs => exact Bool.noConfusion h
        subst hpat
        exact ⟨[], [], rfl⟩
      · rintro ⟨pre, post, hp⟩
        cases pre with
        | cons x xs => simp at hp
        | nil =>
            cases pat with
            | nil => rfl
            | cons b bs => simp at hp
  | cons a as ih =>
      constructor
      · intro h
        have h2 : (startsWithL (a :: as) pat || containsSubL as pat) = true := h
        have h3 : startsWithL (a :: as) pat = true ∨ containsSubL as pat = true := by
          simpa using h2
        rcases h3 with hsw | hct
        · obtain ⟨post, hpost⟩ := (startsWithL_iff _ _).mp hsw
          exact ⟨[], post, by simp [hpost]⟩
        · obtain ⟨pre, post, hp⟩ := ih.mp hct
          exact ⟨a :: pre, post, by simp [hp]⟩
      · rintro ⟨pre, post, hp⟩
        cases pre with
        | nil =>
            have hsw : startsWithL (a :: as) pat = true :=
              (startsWithL_iff _ _).mpr ⟨post, by simpa using hp⟩
            show (startsWithL (a :: as) pat || containsSubL as pat) = true
            simp [hsw]
        | cons x xs =>
            have hax : a = x ∧ as = xs ++ pat ++ post := by simpa using hp
            have hct : containsSubL as pat = true := ih.mpr ⟨xs, post, hax.2⟩
            show (startsWithL (a :: as) pat || containsSubL as pat) = true
            simp [hct]

lemma containsSubL_nil_pat (s : List Char) : containsSubL s [] = true :=
  (containsSubL_iff s []).mpr ⟨[], s, rfl⟩

lemma matchesNote_empty (n : Note) : matchesNote "" n = true := by
  have h0 : toLowerL ("" : String).data = [] := rfl
  simp [matchesNote, h0, containsSubL_nil_pat]

lemma updatedGE_trans (a b c : Note) (hab : updatedGE a b = true)
    (hbc : updatedGE b c = true) : updatedGE a c = true := by
  simp only [updatedGE, decide_eq_true_eq] at *
  omega

lemma updatedGE_total (a b : Note) : (updatedGE a b || updatedGE b a) = true := by
  simp only [updatedGE, Bool.or_eq_true, decide_eq_true_eq]
  omega

lemma filter_matches_empty (notes : List Note) :
    notes.filter (matchesNote "") = notes :=
  List.filter_eq_self.mpr (fun n _ => matchesNote_empty n)

lemma filteredNotes_empty_perm (notes : List Note) :
    (filteredNotes notes "").Perm notes := by
  unfold filteredNotes
  rw [filter_matches_empty]
  exact List.mergeSort_perm notes updatedGE

/-- C5: with the empty query the visible list is a permutation of the
whole collection, it is ordered by updated descending, and it is stable:
for every timestamp the notes carrying it appear in exactly the order the
underlying collection holds them. -/
theorem C5_empty_query_sorted_descending_stable (notes : List Note) :
    (filteredNotes notes "").Perm notes
    ∧ List.Pairwise (fun a b : Note => b.updated ≤ a.updated) (filteredNotes notes "")
    ∧ ∀ t : Nat,
        (filteredNotes notes "").filter (fun n => n.updated == t)
          = notes.filter (fun n => n.updated == t) := by
  refine ⟨filteredNotes_empty_perm notes, ?_, ?_⟩
  · have h := @List.sorted_mergeSort Note updatedGE updatedGE_trans updatedGE_total
      (notes.filter (matchesNote ""))
    have h2 : List.Pairwise (fun a b : Note => updatedGE a b = true)
        (filteredNotes notes "") := h
    exact h2.imp (fun hab => by simpa [updatedGE] using hab)
  · intro t
    have hperm : ((filteredNotes notes "").filter (fun n => n.updated == t)).Perm
        (notes.filter (fun n => n.updated == t)) :=
      (filteredNotes_empty_perm notes).filter _
    have hcpw : List.Pairwise (fun a b : Note => updatedGE a b = true)
        (notes.filter (fun n => n.updated == t)) := by
      refine List.pairwise_of_forall_mem_list ?_
      intro a ha b hb
      have ha2 : a.updated = t := by simpa using (List.mem_filter.mp ha).2
      have hb2 : b.updated = t := by simpa using (List.mem_filter.mp hb).2
      simp [updatedGE, ha2, hb2]
    have hsub : (notes.filter (fun n => n.updated == t)).Sublist
        (filteredNotes notes "") := by
      unfold filteredNotes
      rw [filter_matches_empty]
      exact List.sublist_mergeSort updatedGE_trans updatedGE_total hcpw
        (List.filter_sublist notes)
    have hsub2 : (notes.filter (fun n => n.updated == t)).Sublist
        ((filteredNotes notes "").filter (fun n => n.updated == t)) := by
      have hstep := hsub.filter (fun n => n.updated == t)
      rw [List.filter_eq_self.mpr
        (fun a ha => (List.mem_filter.mp ha).2)] at hstep
      exact hstep
    exact (hsub2.eq_of_length hperm.length_eq.symm).symm

/-- C6: the visible list for a query is a permutation of the notes whose
lowercased title or content contains the lowercased query contiguously;
membership and multiplicity are exactly those of the matching notes (a
matching note occurs as often as in the collection, a non-matching one
never), and with the empty query the visible list is a permutation of the
whole collection. -/
theorem C6_query_filtering_exact (notes : List Note) (q : String) :
    (filteredNotes notes q).Perm (notes.filter (matchesNote q))
    ∧ (∀ n : Note, n ∈ filteredNotes notes q ↔ n ∈ notes ∧ matchesNote q n = true)
    ∧ (∀ n : Note, matchesNote q n = true ↔
        (∃ pre post, toLowerL n.title.data = pre ++ toLowerL q.data ++ post)
        ∨ (∃ pre post, toLowerL n.content.data = pre ++ toLowerL q.data ++ post))
    ∧ (∀ n : Note, (filteredNotes notes q).count n
        = if matchesNote q n = true then notes.count n else 0)
    ∧ (filteredNotes notes "").Perm notes := by
  have hperm : (filteredNotes notes q).Perm (notes.filter (matchesNote q)) :=
    List.mergeSort_perm _ updatedGE
  refine ⟨hperm, ?_, ?_, ?_, filteredNotes_empty_perm notes⟩
  · intro n
    rw [hperm.mem_iff, List.mem_filter]
  · intro n
    simp only [matchesNote, Bool.or_eq_true, containsSubL_iff]
  · intro n
    rw [hperm.count_eq n]
    by_cases hm : matchesNote q n = true
    · rw [if_pos hm, List.count_filter hm]
    · rw [if_neg hm, List.count_eq_zero]
      intro hmem
      exact hm (List.mem_filter.mp hmem).2

lemma filter_not_id_eq_eraseIdx (l : List Note) (sid : String) (idx : Nat)
    (hnodup : (l.map Note.id).Nodup)
    (hidx : findIndexL (fun n => n.id == sid) l = some idx) :
    l.filter (fun n => !(n.id == sid)) = l.eraseIdx idx := by
  induction l generalizing idx with
  | nil => simp [findIndexL] at hidx
  | cons a t ih =>
      have hnd : (∀ n ∈ t, ¬ n.id = a.id) ∧ (List.map Note.id t).Nodup := by
        simpa using hnodup
      by_cases hpa : (a.id == sid) = true
      · have hid : a.id = sid := by simpa using hpa
        have hidx0 : idx = 0 := by
          rw [findIndexL, if_pos hpa] at hidx
          exact (Option.some.inj hidx).symm
        subst hidx0
        rw [List.eraseIdx_cons_zero]
        rw [List.filter_cons_of_neg (by simp [hpa])]
        refine filter_keep_of_absent t sid ?_
        intro n hn hns
        exact hnd.1 n hn (hns.trans hid.symm)
      · obtain ⟨j, hj, rfl⟩ :
            ∃ j, findIndexL (fun n => n.id == sid) t = some j ∧ idx = j + 1 := by
          rw [findIndexL, if_neg hpa] at hidx
          rcases hfi : findIndexL (fun n => n.id == sid) t with _ | j
          · rw [hfi] at hidx
            simp at hidx
          · rw [hfi] at hidx
            simp at hidx
            exact ⟨j, rfl, hidx.symm⟩
        rw [List.eraseIdx_cons_succ]
        rw [List.filter_cons_of_pos (by simp [hpa])]
        rw [ih j hnd.2 hj]

/-- C9: deleting the note carrying an id present in a duplicate-free
collection removes exactly that note (the entry at its index), and the new
selection is the note immediately before the deleted one in the unfiltered
collection, with the index clamped at 0 so that deleting the head selects
the new head, and no selection remains when the deleted note was the only
one. -/
theorem C9_delete_selected_reselects_predecessor (s : AppState) (sid : String)
    (idx : Nat)
    (hnodup : (s.notes.map Note.id).Nodup)
    (hidx : findIndexL (fun n => n.id == sid) s.notes = some idx) :
    (handleDeleteNote sid s).notes = s.notes.eraseIdx idx
    ∧ (s.notes.length = 1 → (handleDeleteNote sid s).selectedId = none)
    ∧ (0 < idx →
        (handleDeleteNote sid s).selectedId = (s.notes[idx - 1]?).map Note.id)
    ∧ (idx = 0 → 1 < s.notes.length →
        (handleDeleteNote sid s).selectedId = (s.notes[1]?).map Note.id) := by
  have hlt : idx < s.notes.length := findIndexL_lt_length _ _ _ hidx
  have herase : s.notes.filter (fun n => !(n.id == sid)) = s.notes.eraseIdx idx :=
    filter_not_id_eq_eraseIdx s.notes sid idx hnodup hidx
  have hlenE : (s.notes.eraseIdx idx).length = s.notes.length - 1 := by
    rw [List.length_eraseIdx, if_pos hlt]
  refine ⟨?_, ?_, ?_, ?_⟩
  · simp [handleDeleteNote, herase]
  · intro h1
    have hnil : s.notes.eraseIdx idx = [] := List.length_eq_zero.mp (by omega)
    simp [handleDeleteNote, herase, hidx, hnil]
  · intro hpos
    have hne : (s.notes.eraseIdx idx).isEmpty = false := by
      cases he : (s.notes.eraseIdx idx).isEmpty
      · rfl
      · have h0 : (s.notes.eraseIdx idx).length = 0 := by
          rw [List.isEmpty_iff.mp he]
          rfl
        omega
    simp [handleDeleteNote, herase, hidx, hne]
    rw [List.getElem?_eraseIdx, if_pos (by omega)]
  · intro h0 hlen2
    subst h0
    simp [handleDeleteNote, herase, hidx]
    intro htail
    have hlt0 := List.length_tail s.notes
    rw [htail] at hlt0
    simp at hlt0
    omega

/-- Concrete state for claim C9: three distinct notes, the middle one
selected. -/
def stC9 : AppState :=
  ⟨[⟨"a", "TA", "CA", 1, 9⟩, ⟨"b", "TB", "CB", 2, 8⟩, ⟨"c", "TC", "CC", 3, 7⟩],
    "", some "b", false, ⟨"TB", "CB"⟩,
    [⟨"a", "TA", "CA", 1, 9⟩, ⟨"b", "TB", "CB", 2, 8⟩, ⟨"c", "TC", "CC", 3, 7⟩]⟩

theorem C9_witness :
    (stC9.notes.map Note.id).Nodup
    ∧ findIndexL (fun n => n.id == "b") stC9.notes = some 1
    ∧ ((handleDeleteNote "b" stC9).notes = stC9.notes.eraseIdx 1
      ∧ (stC9.notes.length = 1 → (handleDeleteNote "b" stC9).selectedId = none)
      ∧ (0 < 1 →
          (handleDeleteNote "b" stC9).selectedId = (stC9.notes[1 - 1]?).map Note.id)
      ∧ (1 = 0 → 1 < stC9.notes.length →
          (handleDeleteNote "b" stC9).selectedId = (stC9.notes[1]?).map Note.id)) :=
  ⟨by decide, by decide,
    C9_delete_selected_reselects_predecessor stC9 "b" 1 (by decide) (by decide)⟩

end NotesApp
